import Mathlib

/-!
Shallow embedding of the servo body-consumption subsystem
(src/components/script/body.rs) together with the collaborator
interfaces it uses (BodyOperations implementors, the Promise cell, the
host JS runtime, the mime crate, the url form-urlencoded codec and the
Rust standard UTF-8 routines).  Pure functions of the source become
Lean functions; the stateful parts (the body object, the JS context
pending-exception flag, the promise cell) are passed explicitly.
Bytes are embedded as natural numbers (every byte produced or consumed
by the source code is below 256).
-/

namespace Body

/-! ### Bytes and UTF-8 (model of the Rust standard library routines) -/

/-- The Unicode replacement character U+FFFD. -/
def replChar : Char := Char.ofNat 0xFFFD

/-- Is `b` a UTF-8 continuation byte (0x80..0xBF)? -/
def isCont (b : Nat) : Bool := 0x80 ≤ b && b < 0xC0

/-- Allowed range of the first continuation byte of a three-byte
sequence with lead byte `b` (restricted for 0xE0 and 0xED, ruling out
overlong encodings and surrogates). -/
def cont1ok3 (b b1 : Nat) : Bool :=
  if b = 0xE0 then 0xA0 ≤ b1 && b1 < 0xC0
  else if b = 0xED then 0x80 ≤ b1 && b1 < 0xA0
  else isCont b1

/-- Allowed range of the first continuation byte of a four-byte
sequence with lead byte `b` (restricted for 0xF0 and 0xF4). -/
def cont1ok4 (b b1 : Nat) : Bool :=
  if b = 0xF0 then 0x90 ≤ b1 && b1 < 0xC0
  else if b = 0xF4 then 0x80 ≤ b1 && b1 < 0x90
  else isCont b1

/-- Modelled from the spec: the lossy UTF-8 decoding performed by the
Rust standard library function String::from_utf8_lossy, which the text
and structured-data decoders call.  Each maximal invalid subpart of
the input is replaced by one U+FFFD replacement character. -/
def utf8LossyAux : List Nat → List Char
  | [] => []
  | [b] =>
    if b < 0x80 then [Char.ofNat b] else [replChar]
  | b :: b1 :: rest =>
    if b < 0x80 then Char.ofNat b :: utf8LossyAux (b1 :: rest)
    else if b < 0xC2 then replChar :: utf8LossyAux (b1 :: rest)
    else if b < 0xE0 then
      if isCont b1 then
        Char.ofNat ((b - 0xC0) * 0x40 + (b1 - 0x80)) :: utf8LossyAux rest
      else replChar :: utf8LossyAux (b1 :: rest)
    else if b < 0xF0 then
      if cont1ok3 b b1 then
        match rest with
        | [] => [replChar]
        | b2 :: rest2 =>
          if isCont b2 then
            Char.ofNat ((b - 0xE0) * 0x1000 + (b1 - 0x80) * 0x40 + (b2 - 0x80)) ::
              utf8LossyAux rest2
          else replChar :: utf8LossyAux (b2 :: rest2)
      else replChar :: utf8LossyAux (b1 :: rest)
    else if b < 0xF5 then
      if cont1ok4 b b1 then
        match rest with
        | [] => [replChar]
        | b2 :: rest2 =>
          if isCont b2 then
            match rest2 with
            | [] => [replChar]
            | b3 :: rest3 =>
              if isCont b3 then
                Char.ofNat
                    ((b - 0xF0) * 0x40000 + (b1 - 0x80) * 0x1000 +
                      (b2 - 0x80) * 0x40 + (b3 - 0x80)) ::
                  utf8LossyAux rest3
              else replChar :: utf8LossyAux (b3 :: rest3)
          else replChar :: utf8LossyAux (b2 :: rest2)
      else replChar :: utf8LossyAux (b1 :: rest)
    else replChar :: utf8LossyAux (b1 :: rest)

/-- Model of String::from_utf8_lossy. -/
def from_utf8_lossy (bytes : List Nat) : String := String.mk (utf8LossyAux bytes)

/-- Modelled from the spec: strict UTF-8 validity as checked by the
Rust standard library functions String::from_utf8 / str::from_utf8,
which the blob and form-fields decoders call on the declared content
type. -/
def utf8Valid : List Nat → Bool
  | [] => true
  | b :: rest =>
    if b < 0x80 then utf8Valid rest
    else if b < 0xC2 then false
    else if b < 0xE0 then
      match rest with
      | b1 :: rest2 => isCont b1 && utf8Valid rest2
      | [] => false
    else if b < 0xF0 then
      match rest with
      | b1 :: b2 :: rest3 => cont1ok3 b b1 && isCont b2 && utf8Valid rest3
      | _ => false
    else if b < 0xF5 then
      match rest with
      | b1 :: b2 :: b3 :: rest4 =>
        cont1ok4 b b1 && isCont b2 && isCont b3 && utf8Valid rest4
      | _ => false
    else false

/-- Model of String::from_utf8 / str::from_utf8: the strict decode,
which on valid input agrees with the lossy decode. -/
def from_utf8 (bytes : List Nat) : Option String :=
  if utf8Valid bytes then some (from_utf8_lossy bytes) else none

/-- UTF-8 encoding of one Unicode scalar value. -/
def utf8EncodeChar (n : Nat) : List Nat :=
  if n < 0x80 then [n]
  else if n < 0x800 then [0xC0 + n / 0x40, 0x80 + n % 0x40]
  else if n < 0x10000 then
    [0xE0 + n / 0x1000, 0x80 + (n / 0x40) % 0x40, 0x80 + n % 0x40]
  else
    [0xF0 + n / 0x40000, 0x80 + (n / 0x1000) % 0x40,
      0x80 + (n / 0x40) % 0x40, 0x80 + n % 0x40]

/-- UTF-8 encoding of a string (the byte content of a Rust String). -/
def utf8Encode (s : String) : List Nat :=
  (s.data.map (fun c => utf8EncodeChar c.toNat)).flatten

/-- UTF-16 code units of one Unicode scalar value. -/
def utf16EncodeChar (n : Nat) : List Nat :=
  if n < 0x10000 then [n]
  else [0xD800 + (n - 0x10000) / 0x400, 0xDC00 + (n - 0x10000) % 0x400]

/-- Model of str::encode_utf16, used by the structured-data decoder to
hand the text to the JS runtime. -/
def encode_utf16 (s : String) : List Nat :=
  (s.data.map (fun c => utf16EncodeChar c.toNat)).flatten

/-! ### The data model of body.rs -/

/-- The representation kinds of body.rs (enum BodyType). -/
inductive BodyType where
  | Blob
  | FormData
  | Json
  | Text
  | ArrayBuffer
deriving DecidableEq, Repr

/-- Opaque JS values (JSVal / parsed JSON values / pending exception
values of the host runtime). -/
inductive JSValue where
  | undefined
  | obj (id : Nat)
deriving DecidableEq, Repr

/-- Modelled from the spec: the Error enum of dom::bindings::error as
used by body.rs.  The constructor typeError embeds Error::Type (the
word Type is reserved in Lean); JSFailed embeds Error::JSFailed, which
carries no runtime exception object. -/
inductive Error where
  | typeError (msg : String)
  | JSFailed
deriving DecidableEq, Repr

/-- Modelled from the spec: a Blob as produced by
Blob::new(root, BlobImpl::new_from_bytes(bytes), mime_string): the raw
bytes together with the type string. -/
structure Blob where
  bytes : List Nat
  typeString : String
deriving DecidableEq, Repr

/-- The decode outcome (enum FetchedData).  FormData is embedded as
its ordered entry list (FormData::Append appends one entry at the
end, preserving order and duplicates). -/
inductive FetchedData where
  | Text (s : String)
  | Json (v : JSValue)
  | BlobData (b : Blob)
  | FormData (entries : List (String × String))
  | ArrayBuffer (handle : Nat)
  | JSException (v : JSValue)
deriving DecidableEq, Repr

/-- Fallible of dom::bindings::error. -/
abbrev Fallible (α : Type) := Except Error α

/-- Modelled from the spec: the host JS runtime capability interface
(JS_ParseJSON and ArrayBuffer::create); parseJSON receives the UTF-16
code units of the text and either returns the parsed value or the
exception value it raises; createArrayBuffer either returns a handle
or fails with no recoverable exception object. -/
structure JSRuntime where
  parseJSON : List Nat → Except JSValue JSValue
  createArrayBuffer : List Nat → Option Nat

/-- Modelled from the spec: the mutable error state of the JS context,
holding the pending exception if one was raised. -/
structure JSContextState where
  pendingException : Option JSValue
deriving DecidableEq, Repr

/-- Model of js::jsapi::JS_ParseJSON: on success the parsed value, on
failure no value and the pending exception set on the context. -/
def JS_ParseJSON (rt : JSRuntime) (cx : JSContextState) (text : List Nat) :
    Option JSValue × JSContextState :=
  match rt.parseJSON text with
  | .ok v => (some v, cx)
  | .error e => (none, { cx with pendingException := some e })

/-- Model of js::rust::wrappers::JS_GetPendingException. -/
def JS_GetPendingException (cx : JSContextState) : Option JSValue :=
  cx.pendingException

/-- Model of js::jsapi::JS_ClearPendingException. -/
def JS_ClearPendingException (_cx : JSContextState) : JSContextState :=
  { pendingException := none }

/-! ### The five decoders -/

/-- run_text_data_algorithm of body.rs. -/
def run_text_data_algorithm (bytes : List Nat) : Fallible FetchedData :=
  .ok (.Text (from_utf8_lossy bytes))

/-- run_json_data_algorithm of body.rs: lossy-decode the bytes,
re-encode as UTF-16, parse with the runtime; on parser failure fetch
the pending exception, clear it, and return it as a JSException
outcome (an Ok carrying the foreign value, not a domain error). -/
def run_json_data_algorithm (rt : JSRuntime) (cx : JSContextState) (bytes : List Nat) :
    Fallible FetchedData × JSContextState :=
  let json_text := from_utf8_lossy bytes
  let u16 := encode_utf16 json_text
  match JS_ParseJSON rt cx u16 with
  | (some v, cx2) => (.ok (.Json v), cx2)
  | (none, cx2) =>
    let exc := (JS_GetPendingException cx2).getD .undefined
    (.ok (.JSException exc), JS_ClearPendingException cx2)

/-- run_blob_data_algorithm of body.rs: wrap the bytes and the
declared content type (empty string when not valid UTF-8). -/
def run_blob_data_algorithm (bytes : List Nat) (mime : List Nat) :
    Fallible FetchedData :=
  let mime_string :=
    match from_utf8 mime with
    | some s => s
    | none => ""
  .ok (.BlobData ⟨bytes, mime_string⟩)

/-! #### The mime essence parser and the form-urlencoded codec -/

/-- Is `c` (a Unicode scalar value) an HTTP token character, as
accepted by the mime crate in the type and subtype? -/
def isTokenChar (c : Nat) : Bool :=
  (48 ≤ c && c ≤ 57) || (65 ≤ c && c ≤ 90) || (97 ≤ c && c ≤ 122) ||
    c ∈ [33, 35, 36, 37, 38, 39, 42, 43, 45, 46, 94, 95, 96, 124, 126]

/-- ASCII lowercasing of one character (the mime crate lowercases the
essence). -/
def toLowerChar (c : Char) : Char :=
  if 65 ≤ c.toNat && c.toNat ≤ 90 then Char.ofNat (c.toNat + 32) else c

/-- Modelled from the spec: the external mime crate parse restricted
to what the form-fields decoder inspects, the MIME essence: everything
before the first semicolon must be token/token; parameters are not
inspected; the essence is lowercased.  Returns the top-level and
sub-level names, or none when parsing fails. -/
def parseMime (s : String) : Option (String × String) :=
  let essence := s.data.takeWhile (fun c => c ≠ ';')
  let top := essence.takeWhile (fun c => c ≠ '/')
  match essence.dropWhile (fun c => c ≠ '/') with
  | '/' :: sub =>
    if top ≠ [] && sub ≠ [] && top.all (fun c => isTokenChar c.toNat) &&
        sub.all (fun c => isTokenChar c.toNat) then
      some (String.mk (top.map toLowerChar), String.mk (sub.map toLowerChar))
    else none
  | _ => none

/-- Value of one hexadecimal digit character (byte), if any. -/
def hexVal (c : Nat) : Option Nat :=
  if 48 ≤ c && c ≤ 57 then some (c - 48)
  else if 65 ≤ c && c ≤ 70 then some (c - 55)
  else if 97 ≤ c && c ≤ 102 then some (c - 87)
  else none

/-- Replace every 0x2B (plus sign) byte by 0x20 (space), as the
form-urlencoded decode does before percent-decoding. -/
def replacePlus (bytes : List Nat) : List Nat :=
  bytes.map (fun b => if b = 43 then 32 else b)

/-- Percent-decoding: a percent sign followed by two hex digits
becomes the denoted byte; a percent sign not so followed is kept
as-is; every other byte is kept as-is. -/
def percentDecode : List Nat → List Nat
  | [] => []
  | 37 :: h :: l :: rest =>
    match hexVal h, hexVal l with
    | some hv, some lv => (hv * 16 + lv) :: percentDecode rest
    | _, _ => 37 :: percentDecode (h :: l :: rest)
  | b :: rest => b :: percentDecode rest

/-- Decode one form-urlencoded component: plus signs become spaces,
percent-escapes are decoded, and the bytes are lossily UTF-8
decoded. -/
def decodeComp (bytes : List Nat) : String :=
  from_utf8_lossy (percentDecode (replacePlus bytes))

/-- Split a byte list at the first occurrence of `sep`: the part
before it, and the part after it when it occurs. -/
def splitFirst (sep : Nat) : List Nat → List Nat × Option (List Nat)
  | [] => ([], none)
  | b :: rest =>
    if b = sep then ([], some rest)
    else
      let p := splitFirst sep rest
      (b :: p.1, p.2)

/-- Split a byte list on every occurrence of `sep`; the result is the
list of the separated chunks (never empty: splitting the empty list
gives one empty chunk). -/
def splitAll (sep : Nat) : List Nat → List (List Nat)
  | [] => [[]]
  | b :: rest =>
    if b = sep then [] :: splitAll sep rest
    else
      match splitAll sep rest with
      | chunk :: chunks => (b :: chunk) :: chunks
      | [] => [[b]]

/-- Decode one nonempty form-urlencoded piece: split at the first
equals sign (a missing value decodes as empty) and decode name and
value independently. -/
def parsePair (seq : List Nat) : String × String :=
  let q := splitFirst 61 seq
  (decodeComp q.1, decodeComp (q.2.getD []))

/-- Modelled from the spec: the external url crate function
form_urlencoded::parse, used by the form-fields decoder: the input is
split on ampersands, empty pieces are skipped, each remaining piece is
split at its first equals sign (missing value decodes as empty), and
name and value are decoded independently, preserving order and
duplicates. -/
def form_urlencoded_parse (input : List Nat) : List (String × String) :=
  ((splitAll 38 input).filter (fun seq => !seq.isEmpty)).map parsePair

/-- Bytes the form-urlencoded serializer keeps as themselves: ASCII
alphanumerics and asterisk, hyphen, period, underscore. -/
def formSafeByte (b : Nat) : Bool :=
  (48 ≤ b && b ≤ 57) || (65 ≤ b && b ≤ 90) || (97 ≤ b && b ≤ 122) ||
    b ∈ [42, 45, 46, 95]

/-- Uppercase hexadecimal digit character (byte) of a value below 16. -/
def hexDigitUpper (n : Nat) : Nat := if n < 10 then 48 + n else 55 + n

/-- Serialize one byte for a form-urlencoded component: space becomes
a plus sign, safe bytes stay, everything else is percent-escaped. -/
def encByte (b : Nat) : List Nat :=
  if b = 32 then [43]
  else if formSafeByte b then [b]
  else [37, hexDigitUpper (b / 16), hexDigitUpper (b % 16)]

/-- Serialize one string as a form-urlencoded component: UTF-8 encode
it and escape each byte. -/
def encodeComponent (s : String) : List Nat :=
  ((utf8Encode s).map encByte).flatten

/-- Serialize one field pair as name=value. -/
def serializePair (p : String × String) : List Nat :=
  encodeComponent p.1 ++ 61 :: encodeComponent p.2

/-- Modelled from the spec: the url-form-encoding of an ordered field
list (the url crate form-urlencoded serializer): the pairs, each
serialized as name=value, joined by ampersands. -/
def form_urlencoded_serialize : List (String × String) → List Nat
  | [] => []
  | [p] => serializePair p
  | p :: q :: rest => serializePair p ++ 38 :: form_urlencoded_serialize (q :: rest)

/-- run_form_data_algorithm of body.rs: decode the declared content
type (empty string when not valid UTF-8), parse it as a MIME type,
and unless the essence is application/x-www-form-urlencoded fail with
the inappropriate-MIME-type error; otherwise parse the bytes as form
fields in order. -/
def run_form_data_algorithm (bytes : List Nat) (mime : List Nat) :
    Fallible FetchedData :=
  let mime_str :=
    match from_utf8 mime with
    | some s => s
    | none => ""
  match parseMime mime_str with
  | none => .error (.typeError "Inappropriate MIME-type for Body")
  | some (top, sub) =>
    if top = "application" && sub = "x-www-form-urlencoded" then
      .ok (.FormData (form_urlencoded_parse bytes))
    else .error (.typeError "Inappropriate MIME-type for Body")

/-- run_array_buffer_data_algorithm of body.rs: ask the runtime to
allocate and fill a buffer; on failure return the JSFailed domain
error (no exception object is fetched and the context is left
alone). -/
def run_array_buffer_data_algorithm (rt : JSRuntime) (cx : JSContextState)
    (bytes : List Nat) : Fallible FetchedData × JSContextState :=
  match rt.createArrayBuffer bytes with
  | none => (.error .JSFailed, cx)
  | some h => (.ok (.ArrayBuffer h), cx)

/-! ### The controller and the promise cell -/

/-- What a rejected promise carries: either a domain Error
(Promise::reject_error) or a foreign JS exception value
(Promise::reject_native on the exception handle). -/
inductive RejectionPayload where
  | domainError (e : Error)
  | foreignException (v : JSValue)
deriving DecidableEq, Repr

/-- Modelled from the spec: the single-assignment promise cell
observed by callers. -/
inductive PromiseState where
  | Pending
  | Resolved (v : FetchedData)
  | Rejected (r : RejectionPayload)
deriving DecidableEq, Repr

/-- Modelled from the spec: the state of the object implementing
BodyOperations (the surrounding Request/Response): the used flag, the
locked flag, the pending body buffer, the declared content type bytes
and the registered in-flight consumption kind. -/
structure BodyObject where
  bodyUsed : Bool
  locked : Bool
  body : Option (List Nat)
  mimeType : List Nat
  bodyPromise : Option BodyType
deriving DecidableEq, Repr

/-- Modelled from the spec: BodyOperations::get_body_used. -/
def get_body_used (o : BodyObject) : Bool := o.bodyUsed

/-- Modelled from the spec: BodyOperations::is_locked. -/
def is_locked (o : BodyObject) : Bool := o.locked

/-- Modelled from the spec: BodyOperations::get_mime_type. -/
def get_mime_type (o : BodyObject) : List Nat := o.mimeType

/-- Modelled from the spec: BodyOperations::set_body_promise as
implemented by the surrounding object: marks the body used and
records the in-flight kind for introspection. -/
def set_body_promise (o : BodyObject) (bt : BodyType) : BodyObject :=
  { o with bodyUsed := true, bodyPromise := some bt }

/-- Modelled from the spec: BodyOperations::take_body: Some transfers
the buffer out (it becomes absent), None means not yet available and
changes nothing. -/
def take_body (o : BodyObject) : Option (List Nat) × BodyObject :=
  match o.body with
  | some b => (some b, { o with body := none })
  | none => (none, o)

/-- run_package_data_algorithm of body.rs: dispatch on the requested
kind. -/
def run_package_data_algorithm (rt : JSRuntime) (cx : JSContextState)
    (bytes : List Nat) (body_type : BodyType) (mime_type : List Nat) :
    Fallible FetchedData × JSContextState :=
  match body_type with
  | .Text => (run_text_data_algorithm bytes, cx)
  | .Json => run_json_data_algorithm rt cx bytes
  | .Blob => (run_blob_data_algorithm bytes mime_type, cx)
  | .FormData => (run_form_data_algorithm bytes mime_type, cx)
  | .ArrayBuffer => run_array_buffer_data_algorithm rt cx bytes

/-- consume_body_with_promise of body.rs: take the body; when it is
not yet available return leaving every observable state as it was;
otherwise run the package-data algorithm once and settle the promise:
each success variant resolves it, a JSException rejects it with the
foreign value, and an Err rejects it with the domain error. -/
def consume_body_with_promise (rt : JSRuntime) (cx : JSContextState)
    (o : BodyObject) (body_type : BodyType) (promise : PromiseState) :
    PromiseState × BodyObject × JSContextState :=
  match take_body o with
  | (none, o2) => (promise, o2, cx)
  | (some bytes, o2) =>
    let r := run_package_data_algorithm rt cx bytes body_type (get_mime_type o2)
    match r.1 with
    | .ok (.Text s) => (.Resolved (.Text s), o2, r.2)
    | .ok (.Json j) => (.Resolved (.Json j), o2, r.2)
    | .ok (.BlobData b) => (.Resolved (.BlobData b), o2, r.2)
    | .ok (.FormData f) => (.Resolved (.FormData f), o2, r.2)
    | .ok (.ArrayBuffer a) => (.Resolved (.ArrayBuffer a), o2, r.2)
    | .ok (.JSException e) => (.Rejected (.foreignException e), o2, r.2)
    | .error err => (.Rejected (.domainError err), o2, r.2)

/-- The rejection message of the disturbed-or-locked precondition
failure of consume_body (its apostrophe is spelled via its code
point). -/
def disturbedMsg : String :=
  "The response" ++ String.singleton (Char.ofNat 39) ++
    "s stream is disturbed or locked"

/-- consume_body of body.rs: a fresh pending promise; when the body is
used or locked, reject it at once with the disturbed-or-locked type
error, touching nothing; otherwise record the promise and kind on the
object (marking it used) and drive the decode. -/
def consume_body (rt : JSRuntime) (cx : JSContextState) (o : BodyObject)
    (body_type : BodyType) : PromiseState × BodyObject × JSContextState :=
  if get_body_used o || is_locked o then
    (.Rejected (.domainError (.typeError disturbedMsg)), o, cx)
  else
    let o2 := set_body_promise o body_type
    consume_body_with_promise rt cx o2 body_type .Pending

/-! ### Helper lemmas -/

/-- A Unicode scalar value: below the surrogate range or above it and
below 0x110000 (the shape of Nat.isValidChar). -/
def ValidScalar (n : Nat) : Prop := n < 0xD800 ∨ (0xDFFF < n ∧ n < 0x110000)

theorem char_toNat_valid (c : Char) : ValidScalar c.toNat := c.valid

/-- Decoding a UTF-8-encoded scalar at the head of a byte list yields
that scalar and continues with the remaining bytes. -/
theorem utf8LossyAux_encodeChar (n : Nat) (h : ValidScalar n) (rest : List Nat) :
    utf8LossyAux (utf8EncodeChar n ++ rest) = Char.ofNat n :: utf8LossyAux rest := by
  by_cases h1 : n < 0x80
  · rw [show utf8EncodeChar n = [n] from by simp [utf8EncodeChar, h1]]
    rcases rest with _ | ⟨r1, _ | ⟨r2, _ | ⟨r3, rest⟩⟩⟩ <;>
      simp only [List.cons_append, List.nil_append, List.append_eq, utf8LossyAux, h1, if_true,
        ite_true]
  · by_cases h2 : n < 0x800
    · rw [show utf8EncodeChar n = [0xC0 + n / 0x40, 0x80 + n % 0x40] from by
        simp [utf8EncodeChar, h1, h2]]
      have ha : ¬(0xC0 + n / 0x40 < 0x80) := by omega
      have hb : ¬(0xC0 + n / 0x40 < 0xC2) := by omega
      have hc : 0xC0 + n / 0x40 < 0xE0 := by omega
      have hd : isCont (0x80 + n % 0x40) = true := by
        simp only [isCont, Bool.and_eq_true, decide_eq_true_eq]
        omega
      have hval : (0xC0 + n / 0x40 - 0xC0) * 0x40 + (0x80 + n % 0x40 - 0x80) = n := by
        omega
      rcases rest with _ | ⟨r1, _ | ⟨r2, rest⟩⟩ <;>
        simp only [List.cons_append, List.nil_append, List.append_eq, utf8LossyAux, ha, hb, hc, hd,
          hval, ite_true, ite_false, if_true, if_false]
    · by_cases h3 : n < 0x10000
      · rw [show utf8EncodeChar n =
            [0xE0 + n / 0x1000, 0x80 + (n / 0x40) % 0x40, 0x80 + n % 0x40] from by
          simp [utf8EncodeChar, h1, h2, h3]]
        have ha : ¬(0xE0 + n / 0x1000 < 0x80) := by omega
        have hb : ¬(0xE0 + n / 0x1000 < 0xC2) := by omega
        have hc : ¬(0xE0 + n / 0x1000 < 0xE0) := by omega
        have hd : 0xE0 + n / 0x1000 < 0xF0 := by omega
        have he : cont1ok3 (0xE0 + n / 0x1000) (0x80 + (n / 0x40) % 0x40) = true := by
          rcases h with h | h <;>
          · unfold cont1ok3
            split
            · next heq =>
              simp only [Bool.and_eq_true, decide_eq_true_eq]
              omega
            · split
              · next heq =>
                simp only [Bool.and_eq_true, decide_eq_true_eq]
                omega
              · simp only [isCont, Bool.and_eq_true, decide_eq_true_eq]
                omega
        have hf : isCont (0x80 + n % 0x40) = true := by
          simp only [isCont, Bool.and_eq_true, decide_eq_true_eq]
          omega
        have hval : (0xE0 + n / 0x1000 - 0xE0) * 0x1000 +
            (0x80 + (n / 0x40) % 0x40 - 0x80) * 0x40 + (0x80 + n % 0x40 - 0x80) = n := by
          omega
        rcases rest with _ | ⟨r1, rest⟩ <;>
          simp only [List.cons_append, List.nil_append, List.append_eq, utf8LossyAux, ha, hb, hc, hd,
            he, hf, hval, ite_true, ite_false, if_true, if_false]
      · have h4 : n < 0x110000 := by rcases h with h | h <;> omega
        rw [show utf8EncodeChar n =
            [0xF0 + n / 0x40000, 0x80 + (n / 0x1000) % 0x40,
              0x80 + (n / 0x40) % 0x40, 0x80 + n % 0x40] from by
          simp [utf8EncodeChar, h1, h2, h3]]
        have ha : ¬(0xF0 + n / 0x40000 < 0x80) := by omega
        have hb : ¬(0xF0 + n / 0x40000 < 0xC2) := by omega
        have hc : ¬(0xF0 + n / 0x40000 < 0xE0) := by omega
        have hd : ¬(0xF0 + n / 0x40000 < 0xF0) := by omega
        have he : 0xF0 + n / 0x40000 < 0xF5 := by omega
        have hg : cont1ok4 (0xF0 + n / 0x40000) (0x80 + (n / 0x1000) % 0x40) = true := by
          unfold cont1ok4
          split
          · next heq =>
            simp only [Bool.and_eq_true, decide_eq_true_eq]
            omega
          · split
            · next heq =>
              simp only [Bool.and_eq_true, decide_eq_true_eq]
              omega
            · simp only [isCont, Bool.and_eq_true, decide_eq_true_eq]
              omega
        have hf2 : isCont (0x80 + (n / 0x40) % 0x40) = true := by
          simp only [isCont, Bool.and_eq_true, decide_eq_true_eq]
          omega
        have hf3 : isCont (0x80 + n % 0x40) = true := by
          simp only [isCont, Bool.and_eq_true, decide_eq_true_eq]
          omega
        have hval : (0xF0 + n / 0x40000 - 0xF0) * 0x40000 +
            (0x80 + (n / 0x1000) % 0x40 - 0x80) * 0x1000 +
            (0x80 + (n / 0x40) % 0x40 - 0x80) * 0x40 + (0x80 + n % 0x40 - 0x80) = n := by
          omega
        simp only [List.cons_append, List.nil_append, List.append_eq, utf8LossyAux, ha, hb, hc, hd,
          he, hg, hf2, hf3, hval, ite_true, ite_false, if_true, if_false]

/-- The lossy decode inverts the UTF-8 encode on character lists. -/
theorem utf8LossyAux_encode_list (cs : List Char) :
    utf8LossyAux ((cs.map (fun c => utf8EncodeChar c.toNat)).flatten) = cs := by
  induction cs with
  | nil => rfl
  | cons c cs ih =>
    simp only [List.map_cons, List.flatten_cons]
    rw [utf8LossyAux_encodeChar c.toNat (char_toNat_valid c), ih, Char.ofNat_toNat]

/-- The lossy decode inverts the UTF-8 encode on strings: on valid
input the lossy decode is exact. -/
theorem from_utf8_lossy_encode (s : String) :
    from_utf8_lossy (utf8Encode s) = s := by
  cases s with
  | mk data =>
    show String.mk (utf8LossyAux (utf8Encode (String.mk data))) = String.mk data
    rw [show utf8Encode (String.mk data) =
        (data.map (fun c => utf8EncodeChar c.toNat)).flatten from rfl]
    rw [utf8LossyAux_encode_list]

theorem percentDecode_cons_ne (b : Nat) (hb : b ≠ 37) (rest : List Nat) :
    percentDecode (b :: rest) = b :: percentDecode rest := by
  cases rest with
  | nil => simp [percentDecode, hb]
  | cons h t =>
    cases t with
    | nil => simp [percentDecode, hb]
    | cons l t2 => simp [percentDecode, hb]

theorem percentDecode_escape (h l hv lv : Nat) (hh : hexVal h = some hv)
    (hl : hexVal l = some lv) (rest : List Nat) :
    percentDecode (37 :: h :: l :: rest) = (hv * 16 + lv) :: percentDecode rest := by
  simp [percentDecode, hh, hl]

theorem hexVal_hexDigitUpper (x : Nat) (h : x < 16) :
    hexVal (hexDigitUpper x) = some x := by
  unfold hexVal hexDigitUpper
  by_cases h10 : x < 10
  · rw [if_pos h10, if_pos (by simp; omega)]
    simp only [Option.some.injEq]
    omega
  · rw [if_neg h10, if_neg (by simp; omega), if_pos (by simp; omega)]
    simp only [Option.some.injEq]
    omega

theorem hexDigitUpper_range (x : Nat) :
    (48 ≤ hexDigitUpper x ∧ hexDigitUpper x ≤ 57) ∨
    (65 ≤ hexDigitUpper x) := by
  unfold hexDigitUpper
  split <;> omega

theorem formSafeByte_props (b : Nat) (h : formSafeByte b = true) :
    b ≠ 37 ∧ b ≠ 43 ∧ b ≠ 38 ∧ b ≠ 61 ∧ b ≠ 32 := by
  simp only [formSafeByte, List.mem_cons, List.not_mem_nil, or_false,
    Bool.or_eq_true, Bool.and_eq_true, decide_eq_true_eq] at h
  omega

/-- Decoding the escaped form of one byte at the head of a byte list
yields that byte back and continues with the remaining bytes. -/
theorem percentDecode_encByte (b : Nat) (hb : b < 256) (tail : List Nat) :
    percentDecode (replacePlus (encByte b) ++ tail) = b :: percentDecode tail := by
  unfold encByte
  by_cases h32 : b = 32
  · subst h32
    rw [if_pos rfl]
    show percentDecode (32 :: tail) = 32 :: percentDecode tail
    exact percentDecode_cons_ne 32 (by omega) tail
  · rw [if_neg h32]
    by_cases hsafe : formSafeByte b = true
    · rw [if_pos hsafe]
      obtain ⟨hb37, hb43, _, _, _⟩ := formSafeByte_props b hsafe
      show percentDecode ((if b = 43 then 32 else b) :: tail) = b :: percentDecode tail
      rw [if_neg hb43]
      exact percentDecode_cons_ne b hb37 tail
    · rw [if_neg hsafe]
      have hhi : hexDigitUpper (b / 16) ≠ 43 := by
        rcases hexDigitUpper_range (b / 16) with h | h <;> omega
      have hlo : hexDigitUpper (b % 16) ≠ 43 := by
        rcases hexDigitUpper_range (b % 16) with h | h <;> omega
      show percentDecode
          ((if (37 : Nat) = 43 then 32 else 37) ::
            (if hexDigitUpper (b / 16) = 43 then 32 else hexDigitUpper (b / 16)) ::
            (if hexDigitUpper (b % 16) = 43 then 32 else hexDigitUpper (b % 16)) ::
            tail) = b :: percentDecode tail
      rw [if_neg (by omega : ¬(37 : Nat) = 43), if_neg hhi, if_neg hlo]
      rw [percentDecode_escape _ _ _ _ (hexVal_hexDigitUpper (b / 16) (by omega))
        (hexVal_hexDigitUpper (b % 16) (by omega))]
      rw [show b / 16 * 16 + b % 16 = b by omega]

/-- Decoding the escaped form of a byte list followed by a tail yields
the bytes back, then the decode of the tail. -/
theorem percentDecode_encBytes (bs : List Nat) (h : ∀ b ∈ bs, b < 256)
    (tail : List Nat) :
    percentDecode (replacePlus ((bs.map encByte).flatten) ++ tail) =
      bs ++ percentDecode tail := by
  induction bs with
  | nil => simp [replacePlus]
  | cons b bs ih =>
    simp only [List.map_cons, List.flatten_cons]
    rw [show replacePlus (encByte b ++ (bs.map encByte).flatten) =
        replacePlus (encByte b) ++ replacePlus ((bs.map encByte).flatten) from
      List.map_append _ _ _]
    rw [List.append_assoc]
    rw [percentDecode_encByte b (h b (List.mem_cons_self b bs))]
    rw [ih (fun x hx => h x (List.mem_cons_of_mem b hx))]
    rfl

theorem utf8EncodeChar_lt_256 (n : Nat) (h : ValidScalar n) :
    ∀ b ∈ utf8EncodeChar n, b < 256 := by
  have hn : n < 0x110000 := by rcases h with h | h <;> omega
  intro b hb
  unfold utf8EncodeChar at hb
  by_cases h1 : n < 0x80
  · rw [if_pos h1] at hb
    simp only [List.mem_singleton] at hb
    omega
  · rw [if_neg h1] at hb
    by_cases h2 : n < 0x800
    · rw [if_pos h2] at hb
      simp only [List.mem_cons, List.not_mem_nil, or_false] at hb
      rcases hb with rfl | rfl <;> omega
    · rw [if_neg h2] at hb
      by_cases h3 : n < 0x10000
      · rw [if_pos h3] at hb
        simp only [List.mem_cons, List.not_mem_nil, or_false] at hb
        rcases hb with rfl | rfl | rfl <;> omega
      · rw [if_neg h3] at hb
        simp only [List.mem_cons, List.not_mem_nil, or_false] at hb
        rcases hb with rfl | rfl | rfl | rfl <;> omega

theorem utf8Encode_lt_256 (s : String) : ∀ b ∈ utf8Encode s, b < 256 := by
  intro b hb
  simp only [utf8Encode, List.mem_flatten, List.mem_map] at hb
  obtain ⟨l, ⟨c, _, rfl⟩, hbl⟩ := hb
  exact utf8EncodeChar_lt_256 c.toNat (char_toNat_valid c) b hbl

/-- Decoding one escaped component yields the original string. -/
theorem decodeComp_encodeComponent (s : String) :
    decodeComp (encodeComponent s) = s := by
  unfold decodeComp encodeComponent
  have h := percentDecode_encBytes (utf8Encode s) (utf8Encode_lt_256 s) []
  rw [List.append_nil] at h
  rw [h]
  show from_utf8_lossy (utf8Encode s ++ []) = s
  rw [List.append_nil]
  exact from_utf8_lossy_encode s

theorem encByte_no_special (b x : Nat) (hx : x ∈ encByte b) :
    x ≠ 38 ∧ x ≠ 61 := by
  unfold encByte at hx
  by_cases h32 : b = 32
  · rw [if_pos h32] at hx
    simp only [List.mem_singleton] at hx
    omega
  · rw [if_neg h32] at hx
    by_cases hsafe : formSafeByte b = true
    · rw [if_pos hsafe] at hx
      simp only [List.mem_singleton] at hx
      obtain ⟨_, _, h38, h61, _⟩ := formSafeByte_props b hsafe
      subst hx
      exact ⟨h38, h61⟩
    · rw [if_neg hsafe] at hx
      simp only [List.mem_cons, List.not_mem_nil, or_false] at hx
      rcases hx with rfl | rfl | rfl
      · omega
      · rcases hexDigitUpper_range (b / 16) with h | h <;> omega
      · rcases hexDigitUpper_range (b % 16) with h | h <;> omega

theorem encodeComponent_no_special (s : String) (x : Nat)
    (hx : x ∈ encodeComponent s) : x ≠ 38 ∧ x ≠ 61 := by
  simp only [encodeComponent, List.mem_flatten, List.mem_map] at hx
  obtain ⟨l, ⟨b, _, rfl⟩, hxl⟩ := hx
  exact encByte_no_special b x hxl

theorem serializePair_no_amp (p : String × String) :
    ∀ x ∈ serializePair p, x ≠ 38 := by
  intro x hx
  simp only [serializePair, List.mem_append, List.mem_cons] at hx
  rcases hx with hx | hx | hx
  · exact (encodeComponent_no_special p.1 x hx).1
  · omega
  · exact (encodeComponent_no_special p.2 x hx).1

theorem serializePair_ne_nil (p : String × String) : serializePair p ≠ [] := by
  simp [serializePair]

theorem splitFirst_no_sep (sep : Nat) (l : List Nat) (h : ∀ x ∈ l, x ≠ sep) :
    splitFirst sep l = (l, none) := by
  induction l with
  | nil => rfl
  | cons b rest ih =>
    have hb : b ≠ sep := h b (List.mem_cons_self b rest)
    simp only [splitFirst, if_neg hb]
    rw [ih (fun x hx => h x (List.mem_cons_of_mem b hx))]

theorem splitFirst_append_sep (sep : Nat) (l tail : List Nat)
    (h : ∀ x ∈ l, x ≠ sep) :
    splitFirst sep (l ++ sep :: tail) = (l, some tail) := by
  induction l with
  | nil => simp [splitFirst]
  | cons b rest ih =>
    have hb : b ≠ sep := h b (List.mem_cons_self b rest)
    simp only [List.cons_append, List.append_eq, splitFirst, if_neg hb]
    rw [ih (fun x hx => h x (List.mem_cons_of_mem b hx))]

theorem splitAll_no_sep (sep : Nat) (l : List Nat) (h : ∀ x ∈ l, x ≠ sep) :
    splitAll sep l = [l] := by
  induction l with
  | nil => rfl
  | cons b rest ih =>
    have hb : b ≠ sep := h b (List.mem_cons_self b rest)
    simp only [splitAll, if_neg hb]
    rw [ih (fun x hx => h x (List.mem_cons_of_mem b hx))]

theorem splitAll_append_sep (sep : Nat) (l tail : List Nat)
    (h : ∀ x ∈ l, x ≠ sep) :
    splitAll sep (l ++ sep :: tail) = l :: splitAll sep tail := by
  induction l with
  | nil => simp [splitAll]
  | cons b rest ih =>
    have hb : b ≠ sep := h b (List.mem_cons_self b rest)
    simp only [List.cons_append, List.append_eq, splitAll, if_neg hb]
    rw [ih (fun x hx => h x (List.mem_cons_of_mem b hx))]

theorem filter_nonempty_cons (l : List Nat) (hl : l ≠ []) (ls : List (List Nat)) :
    (l :: ls).filter (fun seq => !seq.isEmpty) =
      l :: ls.filter (fun seq => !seq.isEmpty) := by
  cases l with
  | nil => exact absurd rfl hl
  | cons a t => simp [List.filter_cons]

theorem parsePair_serializePair (k v : String) :
    parsePair (serializePair (k, v)) = (k, v) := by
  unfold parsePair serializePair
  rw [splitFirst_append_sep 61 (encodeComponent k) (encodeComponent v)
    (fun x hx => (encodeComponent_no_special k x hx).2)]
  simp [decodeComp_encodeComponent]

/-- The form-urlencoded decode inverts the serializer on every ordered
field list. -/
theorem form_parse_serialize (pairs : List (String × String)) :
    form_urlencoded_parse (form_urlencoded_serialize pairs) = pairs := by
  induction pairs with
  | nil => rfl
  | cons p rest ih =>
    obtain ⟨k, v⟩ := p
    cases rest with
    | nil =>
      show form_urlencoded_parse (serializePair (k, v)) = [(k, v)]
      unfold form_urlencoded_parse
      rw [splitAll_no_sep 38 _ (serializePair_no_amp (k, v))]
      rw [filter_nonempty_cons _ (serializePair_ne_nil (k, v)) []]
      simp [parsePair_serializePair]
    | cons q rest2 =>
      show form_urlencoded_parse
          (serializePair (k, v) ++ 38 :: form_urlencoded_serialize (q :: rest2)) =
        (k, v) :: q :: rest2
      unfold form_urlencoded_parse
      rw [splitAll_append_sep 38 _ _ (serializePair_no_amp (k, v))]
      rw [filter_nonempty_cons _ (serializePair_ne_nil (k, v)) _]
      rw [List.map_cons, parsePair_serializePair]
      exact congrArg _ ih

theorem take_body_none {o o2 : BodyObject} (h : take_body o = (none, o2)) :
    o2 = o := by
  cases hb : o.body with
  | none =>
    simp only [take_body, hb, Prod.mk.injEq] at h
    exact h.2.symm
  | some b => simp [take_body, hb] at h

theorem take_body_some {o o2 : BodyObject} {bs : List Nat}
    (h : take_body o = (some bs, o2)) :
    o.body = some bs ∧ o2 = { o with body := none } := by
  cases hb : o.body <;> simp [take_body, hb] at h
  exact ⟨by simp [h.1], h.2.symm⟩

/-- Driving the decode leaves the body object as it was, except that a
successful take empties the buffer. -/
theorem consume_body_with_promise_obj (rt : JSRuntime) (cx : JSContextState)
    (o : BodyObject) (bt : BodyType) (p : PromiseState) :
    (consume_body_with_promise rt cx o bt p).2.1 = o ∨
    (consume_body_with_promise rt cx o bt p).2.1 = { o with body := none } := by
  cases hb : o.body with
  | none => left; simp [consume_body_with_promise, take_body, hb]
  | some bytes =>
    right
    simp only [consume_body_with_promise, take_body, hb]
    split <;> rfl

/-- Driving the decode never changes the used flag, the locked flag or
the registered kind of the body object. -/
theorem consume_body_with_promise_preserves (rt : JSRuntime) (cx : JSContextState)
    (o : BodyObject) (bt : BodyType) (p : PromiseState) :
    ((consume_body_with_promise rt cx o bt p).2.1).bodyUsed = o.bodyUsed ∧
    ((consume_body_with_promise rt cx o bt p).2.1).locked = o.locked ∧
    ((consume_body_with_promise rt cx o bt p).2.1).bodyPromise = o.bodyPromise := by
  rcases consume_body_with_promise_obj rt cx o bt p with h | h <;> simp [h]

/-- A consumption request on an already used-or-locked object is
rejected with the disturbed-or-locked error and nothing changes. -/
theorem consume_body_rejected_of_used_or_locked (rt : JSRuntime)
    (cx : JSContextState) (o : BodyObject) (bt : BodyType)
    (h : o.bodyUsed = true ∨ o.locked = true) :
    consume_body rt cx o bt =
      (.Rejected (.domainError (.typeError disturbedMsg)), o, cx) := by
  have hc : (get_body_used o || is_locked o) = true := by
    rcases h with h | h <;> simp [get_body_used, is_locked, h]
  simp [consume_body, hc]

/-- When the preconditions pass, consume_body is the driver applied to
the object with promise and kind recorded. -/
theorem consume_body_of_fresh (rt : JSRuntime) (cx : JSContextState)
    (o : BodyObject) (bt : BodyType) (hu : o.bodyUsed = false)
    (hl : o.locked = false) :
    consume_body rt cx o bt =
      consume_body_with_promise rt cx (set_body_promise o bt) bt .Pending := by
  have hc : (get_body_used o || is_locked o) = false := by
    simp [get_body_used, is_locked, hu, hl]
  simp [consume_body, hc]

/-- After any consume_body call the resulting object is used or
locked. -/
theorem consume_body_result_used_or_locked (rt : JSRuntime)
    (cx : JSContextState) (o : BodyObject) (bt : BodyType) :
    ((consume_body rt cx o bt).2.1).bodyUsed = true ∨
    ((consume_body rt cx o bt).2.1).locked = true := by
  by_cases h : o.bodyUsed = true ∨ o.locked = true
  · rw [consume_body_rejected_of_used_or_locked rt cx o bt h]
    exact h
  · push_neg at h
    have hu : o.bodyUsed = false := by
      cases hbu : o.bodyUsed
      · rfl
      · exact absurd hbu h.1
    have hl : o.locked = false := by
      cases hlo : o.locked
      · rfl
      · exact absurd hlo h.2
    rw [consume_body_of_fresh rt cx o bt hu hl]
    left
    rw [(consume_body_with_promise_preserves rt cx (set_body_promise o bt) bt .Pending).1]
    rfl

/-- Characterization of the form-fields decoder by the parsed MIME
essence of the declared content type. -/
theorem run_form_data_algorithm_eq (bytes mime : List Nat) :
    run_form_data_algorithm bytes mime =
      match parseMime ((from_utf8 mime).getD "") with
      | none => .error (.typeError "Inappropriate MIME-type for Body")
      | some (top, sub) =>
        if top = "application" && sub = "x-www-form-urlencoded" then
          .ok (.FormData (form_urlencoded_parse bytes))
        else .error (.typeError "Inappropriate MIME-type for Body") := by
  unfold run_form_data_algorithm
  cases from_utf8 mime <;> rfl

/-- The MIME essence of a multipart/form-data declared type is always
multipart and form-data, whatever the boundary. -/
theorem parseMime_multipart (bnd : String) :
    parseMime ("multipart/form-data; boundary=" ++ bnd) =
      some ("multipart", "form-data") := by
  unfold parseMime
  rw [String.data_append]
  rw [List.takeWhile_append]
  rw [if_neg (by decide)]
  decide

/-! ### Concrete collaborators used by the witnesses -/

/-- A runtime whose parser always succeeds and whose allocator always
succeeds. -/
def okRuntime : JSRuntime :=
  { parseJSON := fun _ => .ok .undefined, createArrayBuffer := fun _ => some 0 }

/-- A runtime whose parser always raises the exception value obj 7 and
whose allocator always fails. -/
def failRuntime : JSRuntime :=
  { parseJSON := fun _ => .error (.obj 7), createArrayBuffer := fun _ => none }

/-- A context with no pending exception. -/
def cleanCx : JSContextState := ⟨none⟩

/-- A context with a pending exception already set. -/
def dirtyCx : JSContextState := ⟨some (.obj 3)⟩

/-- An object whose body was already consumed. -/
def usedObj : BodyObject := ⟨true, false, some [97], [], none⟩

/-- A fresh object carrying the body bytes of the string hi. -/
def freshObj : BodyObject := ⟨false, false, some [104, 105], [], none⟩

/-- A fresh object whose body is not yet available. -/
def notReadyObj : BodyObject := ⟨false, false, none, [], none⟩

/-- A fresh object carrying an invalid JSON body. -/
def jsonObj : BodyObject := ⟨false, false, some (utf8Encode "\x7binvalid"), [], none⟩

/-! ### The claim theorems -/

/-- C1: a consumption request on a source whose used flag or locked
flag is set yields a sink already rejected with the
disturbed-or-locked type error, with the object and the context
untouched (in particular the buffer is never taken); and any second
consumption attempt after a first one, whatever its kind and however
the first went, is rejected the same way. -/
theorem consume_body_rejects_disturbed_or_locked
    (rt rt2 : JSRuntime) (cx cx2 : JSContextState) (o : BodyObject)
    (bt bt2 : BodyType) :
    ((o.bodyUsed = true ∨ o.locked = true) →
      consume_body rt cx o bt =
        (.Rejected (.domainError (.typeError disturbedMsg)), o, cx)) ∧
    (consume_body rt2 cx2 (consume_body rt cx o bt).2.1 bt2).1 =
      .Rejected (.domainError (.typeError disturbedMsg)) := by
  constructor
  · exact consume_body_rejected_of_used_or_locked rt cx o bt
  · rw [consume_body_rejected_of_used_or_locked rt2 cx2 _ bt2
      (consume_body_result_used_or_locked rt cx o bt)]

/-- Witness for C1 at a used object. -/
theorem consume_body_rejects_disturbed_or_locked_witness :
    consume_body okRuntime cleanCx usedObj .Text =
      (.Rejected (.domainError (.typeError disturbedMsg)), usedObj, cleanCx) :=
  (consume_body_rejects_disturbed_or_locked okRuntime okRuntime cleanCx cleanCx
    usedObj .Text .Text).1 (Or.inl rfl)

/-- C2: whenever the runtime JSON parser fails on the decoded text,
the structured-data decoder returns the raised exception value as a
JSException outcome and leaves the context with no pending exception,
whatever was pending before; driven through consume_body on a fresh
source carrying those bytes, the sink is rejected with that foreign
exception value (not a domain error) and the final context has no
pending exception. -/
theorem run_json_clears_pending_and_rejects_foreign
    (rt : JSRuntime) (cx : JSContextState) (bytes : List Nat) (e : JSValue)
    (o : BodyObject)
    (hparse : rt.parseJSON (encode_utf16 (from_utf8_lossy bytes)) = .error e) :
    run_json_data_algorithm rt cx bytes = (.ok (.JSException e), ⟨none⟩) ∧
    (o.bodyUsed = false → o.locked = false → o.body = some bytes →
      (consume_body rt cx o .Json).1 = .Rejected (.foreignException e) ∧
      (consume_body rt cx o .Json).2.2 = ⟨none⟩) := by
  have h1 : run_json_data_algorithm rt cx bytes = (.ok (.JSException e), ⟨none⟩) := by
    simp [run_json_data_algorithm, JS_ParseJSON, hparse, JS_GetPendingException,
      JS_ClearPendingException]
  refine ⟨h1, fun hu hl hb => ?_⟩
  rw [consume_body_of_fresh rt cx o .Json hu hl]
  have hbody : (set_body_promise o BodyType.Json).body = some bytes := hb
  simp [consume_body_with_promise, take_body, hbody,
    run_package_data_algorithm, h1]

/-- Witness for C2 at a failing runtime and a dirty context. -/
theorem run_json_clears_pending_and_rejects_foreign_witness :
    (run_json_data_algorithm failRuntime dirtyCx (utf8Encode "\x7binvalid") =
      (.ok (.JSException (.obj 7)), ⟨none⟩)) ∧
    (consume_body failRuntime dirtyCx jsonObj .Json).1 =
      .Rejected (.foreignException (.obj 7)) ∧
    (consume_body failRuntime dirtyCx jsonObj .Json).2.2 = ⟨none⟩ :=
  have h := run_json_clears_pending_and_rejects_foreign failRuntime dirtyCx
    (utf8Encode "\x7binvalid") (.obj 7) jsonObj rfl
  ⟨h.1, h.2 rfl rfl rfl⟩

/-- C3: when the preconditions pass, consume_body marks the source
used and registers the requested kind on it, and this holds whether or
not the buffer was available for the decode. -/
theorem consume_body_marks_used_and_registers_kind
    (rt : JSRuntime) (cx : JSContextState) (o : BodyObject) (bt : BodyType)
    (hu : o.bodyUsed = false) (hl : o.locked = false) :
    ((consume_body rt cx o bt).2.1).bodyUsed = true ∧
    ((consume_body rt cx o bt).2.1).bodyPromise = some bt := by
  rw [consume_body_of_fresh rt cx o bt hu hl]
  have h := consume_body_with_promise_preserves rt cx (set_body_promise o bt) bt .Pending
  exact ⟨by rw [h.1]; rfl, by rw [h.2.2]; rfl⟩

/-- Witness for C3 at a fresh object. -/
theorem consume_body_marks_used_and_registers_kind_witness :
    ((consume_body okRuntime cleanCx freshObj .Text).2.1).bodyUsed = true ∧
    ((consume_body okRuntime cleanCx freshObj .Text).2.1).bodyPromise =
      some .Text :=
  consume_body_marks_used_and_registers_kind okRuntime cleanCx freshObj .Text rfl rfl

/-- C6: the text decoder never fails: on every byte sequence it
succeeds with exactly the lossy UTF-8 decoding of the bytes; on the
concrete invalid sequence 0xFF then a, the result substitutes the
replacement character at the invalid byte. -/
theorem run_text_total_lossy :
    (∀ bytes, run_text_data_algorithm bytes =
      .ok (.Text (from_utf8_lossy bytes))) ∧
    run_text_data_algorithm [255, 97] =
      .ok (.Text (String.mk [replChar, 'a'])) :=
  ⟨fun _ => rfl, rfl⟩

/-- C7: the blob decoder always succeeds, wrapping the raw bytes with
the UTF-8 decode of the declared content type as the type string, and
when that declared type is not valid UTF-8 the type string is empty
and the outcome is still a success. -/
theorem run_blob_total_with_fallback (bytes mime : List Nat) :
    run_blob_data_algorithm bytes mime =
      .ok (.BlobData ⟨bytes, (from_utf8 mime).getD ""⟩) ∧
    (from_utf8 mime = none →
      run_blob_data_algorithm bytes mime = .ok (.BlobData ⟨bytes, ""⟩)) := by
  constructor
  · cases h : from_utf8 mime <;> simp [run_blob_data_algorithm, h]
  · intro h
    simp [run_blob_data_algorithm, h]

/-- Witness for C7 at an invalid-UTF-8 content type. -/
theorem run_blob_total_with_fallback_witness :
    run_blob_data_algorithm [1, 2] [255] = .ok (.BlobData ⟨[1, 2], ""⟩) :=
  (run_blob_total_with_fallback [1, 2] [255]).2 rfl

/-- C8: when the runtime fails to allocate or copy the buffer, the
binary-buffer decoder fails with the JSFailed domain error, the
context is untouched, the driven sink is rejected with a domain error
(which no foreign-exception rejection ever equals), and no recoverable
runtime exception object is carried. -/
theorem run_array_buffer_alloc_failure_jsfailed
    (rt : JSRuntime) (cx : JSContextState) (o : BodyObject) (bytes : List Nat)
    (halloc : rt.createArrayBuffer bytes = none) :
    run_array_buffer_data_algorithm rt cx bytes = (.error .JSFailed, cx) ∧
    (o.bodyUsed = false → o.locked = false → o.body = some bytes →
      (consume_body rt cx o .ArrayBuffer).1 =
        .Rejected (.domainError .JSFailed)) ∧
    (∀ v : JSValue, RejectionPayload.domainError .JSFailed ≠ .foreignException v) := by
  have h1 : run_array_buffer_data_algorithm rt cx bytes = (.error .JSFailed, cx) := by
    simp [run_array_buffer_data_algorithm, halloc]
  refine ⟨h1, fun hu hl hb => ?_, fun v h => by cases h⟩
  rw [consume_body_of_fresh rt cx o .ArrayBuffer hu hl]
  have hbody : (set_body_promise o BodyType.ArrayBuffer).body = some bytes := hb
  simp [consume_body_with_promise, take_body, hbody,
    run_package_data_algorithm, h1]

/-- Witness for C8 at a runtime whose allocator fails. -/
theorem run_array_buffer_alloc_failure_jsfailed_witness :
    run_array_buffer_data_algorithm failRuntime cleanCx [104, 105] =
      (.error .JSFailed, cleanCx) ∧
    (consume_body failRuntime cleanCx freshObj .ArrayBuffer).1 =
      .Rejected (.domainError .JSFailed) :=
  have h := run_array_buffer_alloc_failure_jsfailed failRuntime cleanCx
    freshObj [104, 105] rfl
  ⟨h.1, h.2.1 rfl rfl rfl⟩

/-- C9: when the buffer is not yet available, the driver returns with
the sink, the object and the context exactly as they were: the sink
stays pending, no decoder runs and the used flag is not written
again. -/
theorem consume_body_with_promise_body_not_ready_noop
    (rt : JSRuntime) (cx : JSContextState) (o : BodyObject) (bt : BodyType)
    (p : PromiseState) (h : o.body = none) :
    consume_body_with_promise rt cx o bt p = (p, o, cx) := by
  simp [consume_body_with_promise, take_body, h]

/-- Witness for C9 at a not-yet-available body. -/
theorem consume_body_with_promise_body_not_ready_noop_witness :
    consume_body_with_promise okRuntime cleanCx notReadyObj .Json .Pending =
      (.Pending, notReadyObj, cleanCx) :=
  consume_body_with_promise_body_not_ready_noop okRuntime cleanCx notReadyObj
    .Json .Pending rfl

/-- C10: a declared content type that is not valid UTF-8 is replaced
by the empty string on the form-fields path, which fails MIME parsing,
so the form-fields decoder always fails with the
inappropriate-MIME-type error, while the blob decoder on the same
declared type still succeeds with an empty type string. -/
theorem run_form_invalid_utf8_mime_always_fails
    (bytes mime : List Nat) (h : from_utf8 mime = none) :
    run_form_data_algorithm bytes mime =
      .error (.typeError "Inappropriate MIME-type for Body") ∧
    run_blob_data_algorithm bytes mime = .ok (.BlobData ⟨bytes, ""⟩) := by
  have hempty : parseMime "" = none := rfl
  constructor
  · simp [run_form_data_algorithm, h, hempty]
  · simp [run_blob_data_algorithm, h]

/-- Witness for C10 at an invalid-UTF-8 content type. -/
theorem run_form_invalid_utf8_mime_always_fails_witness :
    run_form_data_algorithm [97, 61, 49] [255] =
      .error (.typeError "Inappropriate MIME-type for Body") ∧
    run_blob_data_algorithm [97, 61, 49] [255] =
      .ok (.BlobData ⟨[97, 61, 49], ""⟩) :=
  run_form_invalid_utf8_mime_always_fails [97, 61, 49] [255] rfl

/-- C4: decoding the url-form-encoding of any ordered field list gives
back exactly that list (order kept, duplicates kept, keys and values
decoded independently, plus signs decoding to spaces); through the
form-fields decoder under the supported content type the outcome is
the same list; and the bytes of a=1&b=2+two decode to the two pairs
(a, 1) and (b, 2 two). -/
theorem form_urlencoded_roundtrip :
    (∀ pairs, form_urlencoded_parse (form_urlencoded_serialize pairs) = pairs) ∧
    (∀ pairs mime, from_utf8 mime = some "application/x-www-form-urlencoded" →
      run_form_data_algorithm (form_urlencoded_serialize pairs) mime =
        .ok (.FormData pairs)) ∧
    form_urlencoded_parse (utf8Encode "a=1&b=2+two") = [("a", "1"), ("b", "2 two")] := by
  refine ⟨form_parse_serialize, fun pairs mime h => ?_, by decide⟩
  rw [run_form_data_algorithm_eq, h]
  show Except.ok (FetchedData.FormData
      (form_urlencoded_parse (form_urlencoded_serialize pairs))) =
    Except.ok (FetchedData.FormData pairs)
  rw [form_parse_serialize]

/-- Witness for C4 at the field list of the spec example. -/
theorem form_urlencoded_roundtrip_witness :
    run_form_data_algorithm
        (form_urlencoded_serialize [("a", "1"), ("b", "2 two")])
        (utf8Encode "application/x-www-form-urlencoded") =
      .ok (.FormData [("a", "1"), ("b", "2 two")]) :=
  form_urlencoded_roundtrip.2.1 [("a", "1"), ("b", "2 two")]
    (utf8Encode "application/x-www-form-urlencoded") (by decide)

/-- C5: the form-fields decoder fails with the inappropriate-MIME-type
error exactly when the declared content type fails to parse as a MIME
essence of application and x-www-form-urlencoded (it fails to parse at
all, or parses to any other top/sub pair); in particular a
multipart/form-data declared type with any boundary always fails with
that error. -/
theorem run_form_error_iff_inappropriate_mime (bytes mime : List Nat) :
    (run_form_data_algorithm bytes mime =
        .error (.typeError "Inappropriate MIME-type for Body") ↔
      parseMime ((from_utf8 mime).getD "") ≠
        some ("application", "x-www-form-urlencoded")) ∧
    (∀ (bnd : String) (m2 bytes2 : List Nat),
      from_utf8 m2 = some ("multipart/form-data; boundary=" ++ bnd) →
      run_form_data_algorithm bytes2 m2 =
        .error (.typeError "Inappropriate MIME-type for Body")) := by
  constructor
  · rw [run_form_data_algorithm_eq]
    cases hp : parseMime ((from_utf8 mime).getD "") with
    | none => simp
    | some ts =>
      obtain ⟨t, s⟩ := ts
      dsimp only
      by_cases hc : (t = "application" && s = "x-www-form-urlencoded") = true
      · rw [if_pos hc]
        simp only [Bool.and_eq_true, decide_eq_true_eq] at hc
        obtain ⟨rfl, rfl⟩ := hc
        simp
      · rw [if_neg hc]
        simp only [Bool.and_eq_true, decide_eq_true_eq, not_and] at hc
        simp only [ne_eq, Option.some.injEq, Prod.mk.injEq, true_iff]
        intro hand
        exact hc hand.1 hand.2
  · intro bnd m2 bytes2 hm2
    rw [run_form_data_algorithm_eq, hm2]
    show (match parseMime ("multipart/form-data; boundary=" ++ bnd) with
      | none => Except.error (Error.typeError "Inappropriate MIME-type for Body")
      | some (top, sub) =>
        if top = "application" && sub = "x-www-form-urlencoded" then
          Except.ok (FetchedData.FormData (form_urlencoded_parse bytes2))
        else Except.error (Error.typeError "Inappropriate MIME-type for Body")) =
      Except.error (Error.typeError "Inappropriate MIME-type for Body")
    rw [parseMime_multipart bnd]
    dsimp only
    rw [if_neg (by decide)]

/-- Witness for C5 at an unparsable content type and at a concrete
multipart content type. -/
theorem run_form_error_iff_inappropriate_mime_witness :
    run_form_data_algorithm [97] [59] =
      .error (.typeError "Inappropriate MIME-type for Body") ∧
    run_form_data_algorithm [97]
        (utf8Encode ("multipart/form-data; boundary=" ++ "x")) =
      .error (.typeError "Inappropriate MIME-type for Body") :=
  ⟨(run_form_error_iff_inappropriate_mime [97] [59]).1.mpr (by decide),
    (run_form_error_iff_inappropriate_mime [97] [59]).2 "x"
      (utf8Encode ("multipart/form-data; boundary=" ++ "x")) [97] (by decide)⟩

end Body
